import Mathlib

/-!
Verification of the concordium-node connection and routing engine.

This file gives a shallow embedding, in Lean, of the parts of the node that
the specification's testable properties talk about:

* the post-handshake frame codec of `src/connection/low_level.rs`
  (length-prefixed framing, chunked authenticated encryption, incremental
  de-framing under arbitrary socket read boundaries);
* the broadcast fan-out of `src/p2p/p2p_node.rs` (`process_network_packet`,
  `is_valid_broadcast_target`);
* connection housekeeping (`connection_housekeeping`): duplicate-id reaping
  and the failed-packets eviction threshold;
* the ban machinery (`ban_node`, `is_banned`, `clear_bans`, the handshake
  ban check of `src/connection/message_handlers.rs`);
* the consensus-facing packet router (`handle_pkt_out` of
  `src/plugins/consensus.rs`) and the catch-up state machine
  (`check_peer_states`);
* the pong handler (`handle_pong`) and the peer buckets
  (`src/network/buckets.rs`).

Bytes are modelled as natural numbers (each byte is `< 256` wherever a
decoder depends on it), byte strings as `List Nat`, and the stateful Rust
objects as explicit state records.  Fallible Rust code returns `Except` or
`Option`.  All definitions are executable so that concrete runs can be
checked by `decide` / `rfl`.
-/

namespace ConcordiumNode

/-! ## Constants from `src/connection/low_level.rs` -/

/-- The number of bytes of the length field of a frame (`PAYLOAD_SIZE`,
the size of a `u32`). -/
def PAYLOAD_SIZE : Nat := 4

/-- Maximum size of a single noise message (`64 * 1024 - 1`). -/
def NOISE_MAX_MESSAGE_LEN : Nat := 64 * 1024 - 1

/-- Size of the noise authentication tag (`MAC_LENGTH` /
`NOISE_AUTH_TAG_LEN`). -/
def MAC_LENGTH : Nat := 16

/-- Maximum plaintext payload of a single noise message
(`NOISE_MAX_MESSAGE_LEN - NOISE_AUTH_TAG_LEN`). -/
def NOISE_MAX_PAYLOAD_LEN : Nat := NOISE_MAX_MESSAGE_LEN - MAC_LENGTH

/-- Modelled from the spec: `PROTOCOL_MAX_MESSAGE_SIZE` is referenced by
`low_level.rs` but lives in `src/network/mod.rs` of a revision that is not
part of this tree; the spec fixes the post-handshake size ceiling at
20 MiB per frame. -/
def PROTOCOL_MAX_MESSAGE_SIZE : Nat := 20 * 1024 * 1024

/-! ## Big-endian 32-bit length field

`encrypt_and_enqueue` writes the frame length with
`(full_msg_len as PayloadSize).to_be_bytes()`; `attempt_to_read_length`
reads it back with `PayloadSize::from_be_bytes`. -/

/-- The four big-endian bytes of a `u32` value. -/
def toBe32 (n : Nat) : List Nat :=
  [n / 2 ^ 24 % 256, n / 2 ^ 16 % 256, n / 2 ^ 8 % 256, n % 256]

/-- Reassemble a `u32` from its four big-endian bytes. -/
def fromBe32 (b3 b2 b1 b0 : Nat) : Nat :=
  ((b3 * 256 + b2) * 256 + b1) * 256 + b0

/-! ## Chunking

`encrypt_and_enqueue` cuts the plaintext into chunks of at most
`NOISE_MAX_PAYLOAD_LEN` bytes; `decrypt` cuts the received ciphertext into
chunks of at most `NOISE_MAX_MESSAGE_LEN` bytes.  `chunksOf` is the common
list-of-chunks view of those two cursor loops.  The auxiliary fuel makes
the recursion structural, so that concrete instances reduce in the
kernel; `chunksOf` is only ever used with a positive chunk size, for which
`l.length` steps of fuel are enough. -/

def chunksOfAux (k : Nat) : Nat → List Nat → List (List Nat)
  | _, [] => []
  | 0, l => [l]
  | fuel + 1, a :: l => (a :: l).take k :: chunksOfAux k fuel ((a :: l).drop k)

/-- Split a byte string into consecutive chunks of `k` bytes; the last
chunk may be shorter.  The empty string has no chunks. -/
def chunksOf (k : Nat) (l : List Nat) : List (List Nat) :=
  chunksOfAux k l.length l

/-! ## The noise session

The node encrypts with `noiseexplorer_xx::NoiseSession`, an external
dependency of the repository.  The session is abstracted as a cipher: a
`sendMessage` that turns the `i`-th plaintext chunk of a message into a
ciphertext chunk `MAC_LENGTH` bytes longer (the source's
`NoiseSession::send_message` acting on `chunk_len + MAC_LENGTH` bytes),
and a `recvMessage` that inverts it (`NoiseSession::recv_message`),
failing on forged input.
Both endpoints advance their chunk counters in lockstep, so
indexing chunks from 0 within a message is faithful for a message
exchanged on a fixed session. -/

structure NoiseCipher where
  sendMessage : Nat → List Nat → List Nat
  recvMessage : Nat → List Nat → Option (List Nat)
  send_length : ∀ i pt, (sendMessage i pt).length = pt.length + MAC_LENGTH
  recv_send : ∀ i pt, recvMessage i (sendMessage i pt) = some pt

/-- A concrete `NoiseCipher` used to instantiate closed runs: sealing
appends a zero MAC, opening strips it. -/
def padCipher : NoiseCipher where
  sendMessage _ pt := pt ++ List.replicate MAC_LENGTH 0
  recvMessage _ ct := if MAC_LENGTH ≤ ct.length then some (ct.take (ct.length - MAC_LENGTH)) else none
  send_length := by intro i pt; simp [MAC_LENGTH]
  recv_send := by
    intro i pt
    simp only [List.length_append, List.length_replicate, MAC_LENGTH]
    rw [if_pos (by omega), Nat.add_sub_cancel]
    simp [List.take_left]

/-! ## Outbound path (`encrypt_and_enqueue`, `encrypt_chunk`) -/

/-- Seal the chunks of one logical message in order, numbering them from
`i`, and concatenate the resulting noise messages — the loop of
`encrypt_and_enqueue` over `encrypt_chunk`. -/
def sealChunks (C : NoiseCipher) : Nat → List (List Nat) → List Nat
  | _, [] => []
  | i, c :: cs => C.sendMessage i c ++ sealChunks C (i + 1) cs

/-- Length contributed by the last, possibly incomplete chunk
(`last_chunk_len` in `encrypt_and_enqueue`): `rem + MAC_LENGTH` when the
plaintext length is not a multiple of `NOISE_MAX_PAYLOAD_LEN`, else 0. -/
def lastChunkLen (len : Nat) : Nat :=
  if len % NOISE_MAX_PAYLOAD_LEN ≠ 0 then len % NOISE_MAX_PAYLOAD_LEN + MAC_LENGTH else 0

/-- The declared frame length (`full_msg_len`):
`num_full_chunks * NOISE_MAX_MESSAGE_LEN + last_chunk_len`. -/
def fullMsgLen (len : Nat) : Nat :=
  len / NOISE_MAX_PAYLOAD_LEN * NOISE_MAX_MESSAGE_LEN + lastChunkLen len

/-- The byte string `encrypt_and_enqueue` appends to the output queue for
plaintext `input`: the big-endian `full_msg_len`, then the sealed chunks.
(The interleaved `flush_socket_once` calls drain that queue to the socket
in order and do not alter the byte sequence.) -/
def encryptAndEnqueue (C : NoiseCipher) (input : List Nat) : List Nat :=
  toBe32 (fullMsgLen input.length) ++ sealChunks C 0 (chunksOf NOISE_MAX_PAYLOAD_LEN input)

/-! ## Inbound path: `decrypt` / `decrypt_chunk`

`decrypt` cuts the accumulated ciphertext into `NOISE_MAX_MESSAGE_LEN`
sized chunks (the last one may be short), decrypts each in order with the
session, and concatenates the plaintexts (the source does this in place in
a cursor and then truncates the MACs away; the net result is the
concatenation of the per-chunk plaintexts).  A failing
`NoiseSession::recv_message` aborts the whole decryption. -/

def openChunks (C : NoiseCipher) : Nat → List (List Nat) → Option (List Nat)
  | _, [] => some []
  | i, c :: cs =>
    match C.recvMessage i c with
    | none => none
    | some pt =>
      match openChunks C (i + 1) cs with
      | none => none
      | some rest => some (pt ++ rest)

/-- Decrypt one fully accumulated frame body (`ConnectionLowLevel::decrypt`). -/
def decryptMsg (C : NoiseCipher) (ct : List Nat) : Option (List Nat) :=
  openChunks C 0 (chunksOf NOISE_MAX_MESSAGE_LEN ct)

/-- Decidable equality of `Except` results, used to check concrete runs
of the codec by `decide`. -/
def exceptDecEq {e a : Type} [DecidableEq e] [DecidableEq a] : DecidableEq (Except e a)
  | .error x, .error y =>
    if h : x = y then .isTrue (congrArg Except.error h)
    else .isFalse (fun hh => h (Except.error.inj hh))
  | .error _, .ok _ => .isFalse (fun hh => Except.noConfusion hh)
  | .ok _, .error _ => .isFalse (fun hh => Except.noConfusion hh)
  | .ok x, .ok y =>
    if h : x = y then .isTrue (congrArg Except.ok h)
    else .isFalse (fun hh => h (Except.ok.inj hh))

instance {e a : Type} [DecidableEq e] [DecidableEq a] : DecidableEq (Except e a) :=
  exceptDecEq

/-! ## Inbound path: incremental de-framing

`IncomingMessage` is the accumulator of `low_level.rs`: the partial length
field (`size_bytes`), the number of body bytes still missing
(`pending_bytes`), and the ciphertext collected so far (`message`).

`read_from_socket` consumes the bytes delivered by the socket in order:
first to complete the 4-byte length field (`attempt_to_read_length`), then
to extend the ciphertext accumulator until `pending_bytes` hits zero, at
which point the frame body is decrypted (`process_incoming_msg`).  The
source moves `min`-sized slices out of the socket buffer; consuming the
same bytes one at a time leaves the accumulator in exactly the same state,
so the model feeds single bytes.  `WouldBlock` simply ends the current
read, so a socket schedule is just a partition of the byte stream, handled
by `processParts` below.  The model is of a post-handshake connection
(`is_post_handshake() == true`), so the handshake-phase size limit does
not apply and completed frames go to `decrypt`. -/

structure IncomingMessage where
  size_bytes : List Nat
  pending_bytes : Nat
  message : List Nat
deriving DecidableEq, Repr

/-- The accumulator at rest: no partial length field, no pending body. -/
def IncomingMessage.initial : IncomingMessage := ⟨[], 0, []⟩

/-- Feed one byte into the accumulator.  Returns the new accumulator and,
when a frame completed, its decrypted plaintext.  Errors are fatal to the
connection, exactly the `bail!` cases of `attempt_to_read_length` and the
decryption failure of `decrypt`. -/
def feedByte (C : NoiseCipher) (st : IncomingMessage) (b : Nat) :
    Except String (IncomingMessage × Option (List Nat)) :=
  if st.pending_bytes = 0 then
    match st.size_bytes ++ [b] with
    | [b3, b2, b1, b0] =>
      let expected := fromBe32 b3 b2 b1 b0
      if expected = 0 then
        .error "I got a zero-sized message"
      else if PROTOCOL_MAX_MESSAGE_SIZE < expected then
        .error "expected message size exceeds the maximum protocol size"
      else
        .ok ({ size_bytes := [], pending_bytes := expected, message := [] }, none)
    | sb => .ok ({ st with size_bytes := sb }, none)
  else if st.pending_bytes = 1 then
    match decryptMsg C (st.message ++ [b]) with
    | some m => .ok (IncomingMessage.initial, some m)
    | none => .error "decryption failure"
  else
    .ok ({ st with pending_bytes := st.pending_bytes - 1, message := st.message ++ [b] }, none)

/-- Feed a whole byte sequence, collecting the completed messages in
order.  This is `read_stream` restricted to one socket read. -/
def processBytes (C : NoiseCipher) : IncomingMessage → List Nat →
    Except String (IncomingMessage × List (List Nat))
  | st, [] => .ok (st, [])
  | st, b :: bs =>
    match feedByte C st b with
    | .error e => .error e
    | .ok (st', none) => processBytes C st' bs
    | .ok (st', some m) =>
      match processBytes C st' bs with
      | .error e => .error e
      | .ok (st'', ms) => .ok (st'', m :: ms)

/-- Feed the byte stream as delivered by a socket schedule: each part is
one successful read, and the `WouldBlock` between two parts ends the
read loop until the poller reports readiness again. -/
def processParts (C : NoiseCipher) (st : IncomingMessage) (parts : List (List Nat)) :
    Except String (IncomingMessage × List (List Nat)) :=
  processBytes C st parts.flatten

/-! ## Connections (`src/p2p/p2p_node.rs`, `src/common/p2p_peer.rs`)

The node's connection table is a `HashMap<Token, Arc<Connection>>`; the
model keeps the connections as a list (iteration order of the map) whose
`token`s are pairwise distinct in any reachable table (tokens come from
the `next_id` counter).  `remoteId` is the value inside
`remote_peer.id`; it is meaningful — `remote_id()` returns `Some` — only
once `isPostHandshake` holds. -/

inductive PeerType
  | Node
  | Bootstrapper
deriving DecidableEq, Repr

structure Conn where
  token : Nat
  remoteId : Nat
  isPostHandshake : Bool
  peerType : PeerType
  networks : List Nat
  failedPkts : Nat
  lastSeen : Nat
  lastLatency : Nat
deriving DecidableEq, Repr

/-- The source's `Connection::remote_id()`: `Some` only post-handshake. -/
def Conn.remoteIdOpt (c : Conn) : Option Nat :=
  if c.isPostHandshake then some c.remoteId else none

/-- The source's `P2PNode::find_connection_by_id`: the first connection of
the table whose `remote_id()` is `Some id`. -/
def findConnectionById (conns : List Conn) (id : Nat) : Option Conn :=
  conns.find? (fun c => c.remoteIdOpt == some id)

/-- The source's `P2PNode::remove_connection`: drop the table entry with
the given token. -/
def removeConnection (conns : List Conn) (token : Nat) : List Conn :=
  conns.filter (fun c => !(c.token == token))

/-! ## Broadcast fan-out (`process_network_packet`) -/

/-- The filter of `is_valid_broadcast_target` (p2p_node.rs:1333): the
remote peer is not a bootstrapper, is not the packet's sender, is not in
`peers_to_skip`, and has joined the packet's network.  The caller
(`send_over_all_connections`) has already established that the connection
is post-handshake, which is why unwrapping the remote id is safe. -/
def isValidBroadcastTarget (conn : Conn) (sender : Nat) (peersToSkip : List Nat)
    (networkId : Nat) : Bool :=
  !(conn.peerType == PeerType.Bootstrapper) && !(conn.remoteId == sender)
    && !(peersToSkip.contains conn.remoteId) && conn.networks.contains networkId

/-- The source's `P2PNode::get_node_peer_ids`: ids of the post-handshake
connections whose remote peer is a `Node`
(`get_peer_stats(Some(PeerType::Node))` mapped to ids). -/
def getNodePeerIds (conns : List Conn) : List Nat :=
  (conns.filter fun c => c.isPostHandshake && c.peerType == PeerType.Node).map (·.remoteId)

/-- The `peers_to_skip` computation of `process_network_packet`
(p2p_node.rs:1065) for a broadcast.  `relay_broadcast_percentage` is an
`f64` compared against `1.0` and multiplied by a `u32`-sized length; it is
modelled as a rational (exact for the concrete values used below).
`choose n l` stands for `rng.choose_multiple(l, n)`: any function that
returns `min n l.length` elements of `l` (the randomness source is a
parameter of the model). -/
def peersToSkipBroadcast (pct : ℚ) (choose : Nat → List Nat → List Nat)
    (conns : List Conn) (dontRelayTo : List Nat) : List Nat :=
  if pct < 1 then
    let peers := (getNodePeerIds conns).filter fun id => !(dontRelayTo.contains id)
    choose (Int.toNat ⌊(peers.length : ℚ) * pct⌋) peers
  else
    dontRelayTo

/-- The set of connections a received broadcast is relayed to: the
broadcast arm of `process_network_packet` followed by
`send_over_all_connections`, which sends to every post-handshake
connection passing the `is_valid_broadcast_target` filter. -/
def broadcastRecipients (conns : List Conn) (sourceId : Nat) (dontRelayTo : List Nat)
    (networkId : Nat) (pct : ℚ) (choose : Nat → List Nat → List Nat) : List Conn :=
  let skip := peersToSkipBroadcast pct choose conns dontRelayTo
  conns.filter fun c => c.isPostHandshake && isValidBroadcastTarget c sourceId skip networkId

/-- The eligible-target set exactly as the spec's broadcast-exclusion
property words it: post-handshake, not a bootstrapper, id outside
`E ∪ {src, self}`, and subscribed to the packet's network.  Stated from
the spec, to be compared with `broadcastRecipients`. -/
def specBroadcastEligible (conns : List Conn) (selfId sourceId : Nat) (excludeE : List Nat)
    (networkId : Nat) : List Conn :=
  conns.filter fun c => c.isPostHandshake && !(c.peerType == PeerType.Bootstrapper)
    && !(excludeE.contains c.remoteId) && !(c.remoteId == sourceId)
    && !(c.remoteId == selfId) && c.networks.contains networkId

/-! ## Housekeeping: duplicate-id reaping (`connection_housekeeping`)

p2p_node.rs:657: collect the post-handshake connections, sort them by
`(remote_id(), Reverse(token))`, `dedup_by_key` on `remote_id()` (which
keeps the first element of every run of equal keys) and retain in the
table exactly the connections whose token survived. -/

/-- The sort key order of `conns.sort_by_key(|conn| (conn.remote_id(),
Reverse(conn.token)))`: ids ascending and, within one id, tokens
descending (all compared connections are post-handshake, so their
`remote_id()`s are all `Some` and compare as the raw ids). -/
def connKeyLe (a b : Conn) : Prop :=
  a.remoteId < b.remoteId ∨ (a.remoteId = b.remoteId ∧ b.token ≤ a.token)

instance : DecidableRel connKeyLe := fun a b => by
  unfold connKeyLe; infer_instance

instance : IsTotal Conn connKeyLe := ⟨by intro a b; unfold connKeyLe; omega⟩

instance : IsTrans Conn connKeyLe := ⟨by intro a b c; unfold connKeyLe; omega⟩

/-- Rust's `Vec::dedup_by_key` on the `remote_id` key, with the first
element of the run already split off: keep `a`, drop every immediately
following element with the same id, continue from the first differing
element. -/
def dedupFrom (a : Conn) : List Conn → List Conn
  | [] => [a]
  | b :: t => if a.remoteId = b.remoteId then dedupFrom a t else a :: dedupFrom b t

/-- `conns.dedup_by_key(|conn| conn.remote_id())`. -/
def dedupByRemoteId : List Conn → List Conn
  | [] => []
  | a :: t => dedupFrom a t

/-- The deduplication block of `connection_housekeeping`: the sorted,
deduplicated post-handshake connections are the keepers, and the table
then retains exactly the connections carrying a keeper's token. -/
def housekeepingDedup (conns : List Conn) : List Conn :=
  let keepers := dedupByRemoteId ((conns.filter (·.isPostHandshake)).insertionSort connKeyLe)
  conns.filter fun c => keepers.any fun k => k.token == c.token

/-! ## Housekeeping: faulty-connection eviction -/

/-- Threshold for the failed-packets eviction.  p2p_node.rs compares
against `config::MAX_FAILED_PACKETS_ALLOWED` from a module not in this
tree; the constant of the same name in `src/p2p/tls_server_private.rs:16`
is 50, and both comparison sites use `>=`.  The claims under study depend
only on the comparison, not on the value. -/
def MAX_FAILED_PACKETS_ALLOWED : Nat := 50

/-- The `is_conn_faulty` closure of `connection_housekeeping`
(p2p_node.rs:671): too many failed packets (note the `>=`), or — when a
maximum latency is configured — an exceeded latency. -/
def isConnFaulty (maxLatency : Option Nat) (c : Conn) : Bool :=
  decide (MAX_FAILED_PACKETS_ALLOWED ≤ c.failedPkts)
    || (match maxLatency with
        | some ml => decide (ml ≤ c.lastLatency)
        | none => false)

/-- The `is_conn_inactive` closure: post-handshake and silent beyond the
keep-alive of the node's own kind.  The two keep-alive constants live in
the missing `configuration` module and are passed as parameters. -/
def isConnInactive (selfType : PeerType) (currStamp maxNormalKA maxBootKA : Nat)
    (c : Conn) : Bool :=
  c.isPostHandshake
    && ((selfType == PeerType.Node && decide (c.lastSeen + maxNormalKA < currStamp))
      || (selfType == PeerType.Bootstrapper && decide (c.lastSeen + maxBootKA < currStamp)))

/-- The `is_conn_without_handshake` closure: still pre-handshake beyond
the (shorter) pre-handshake keep-alive. -/
def isConnWithoutHandshake (currStamp maxPreKA : Nat) (c : Conn) : Bool :=
  !c.isPostHandshake && decide (c.lastSeen + maxPreKA < currStamp)

/-- The "Kill faulty and inactive connections" retain of
`connection_housekeeping` (p2p_node.rs:694). -/
def housekeepingKillFaulty (selfType : PeerType) (currStamp : Nat) (maxLatency : Option Nat)
    (maxNormalKA maxBootKA maxPreKA : Nat) (conns : List Conn) : List Conn :=
  conns.filter fun c =>
    !(isConnFaulty maxLatency c || isConnInactive selfType currStamp maxNormalKA maxBootKA c
      || isConnWithoutHandshake currStamp maxPreKA c)

/-! ## Bans (`ban_node`, `is_banned`, `clear_bans`, `P2PNode::new`)

The ban store is a key/value store (`kvs`) persisted in the node's data
directory; keys are serialized `BannedNode` entries, values are unused
expiry stamps.  The model keeps the store as the list of banned entries
and a node as the store plus the connection table. -/

inductive BanId
  | ById (id : Nat)
  | ByAddr (ip : Nat)
deriving DecidableEq, Repr

structure NodeState where
  kvs : List BanId
  connections : List Conn
deriving DecidableEq, Repr

/-- The source's `P2PNode::is_banned`: a lookup in the ban store. -/
def isBanned (s : NodeState) (peer : BanId) : Bool := s.kvs.contains peer

/-- The `BannedNode::ById` arm of `P2PNode::ban_node` (p2p_node.rs:896):
put the entry into the store, then remove the connection found by
`find_connection_by_id` (the first one with that id), if any. -/
def banNodeById (s : NodeState) (id : Nat) : NodeState :=
  { kvs := if s.kvs.contains (BanId.ById id) then s.kvs else s.kvs ++ [BanId.ById id]
    connections :=
      match findConnectionById s.connections id with
      | some c => removeConnection s.connections c.token
      | none => s.connections }

/-- The source's `P2PNode::clear_bans`: empty the ban store. -/
def clearBans (s : NodeState) : NodeState := { s with kvs := [] }

/-- The source's `P2PNode::new` over a data directory holding `persisted`
as the ban store: the store is opened and then immediately emptied by the
`clear_bans` call at p2p_node.rs:413; the fresh node has no connections. -/
def newNode (persisted : List BanId) : NodeState :=
  clearBans { kvs := persisted, connections := [] }

/-- Restarting a node over the same data directory: construct a new
`P2PNode` on the ban store the previous instance left behind. -/
def restartNode (s : NodeState) : NodeState := newNode s.kvs

/-- The ban check of `handle_handshake_req`
(message_handlers.rs:58): a handshake request from a banned id removes the
connection and fails; otherwise the connection is promoted to
post-handshake with the advertised id (the PeerList/bucket bookkeeping of
the handler belongs to other subsystems and is not part of this state).
Returns the new state and whether the handshake was accepted. -/
def handleHandshakeReq (s : NodeState) (connToken remoteNodeId : Nat) : NodeState × Bool :=
  if isBanned s (BanId.ById remoteNodeId) then
    ({ s with connections := removeConnection s.connections connToken }, false)
  else
    ({ s with connections := s.connections.map fun c =>
        if c.token == connToken then
          { c with isPostHandshake := true, remoteId := remoteNodeId }
        else c }, true)

/-! ## Consensus router: `handle_pkt_out` (`src/plugins/consensus.rs`)

`PacketType` and the `Endianness` used to read the two-byte type code
live in the `concordium-common` crate of the repository, which is not
under this tree. -/

/-- Modelled from the spec: the packet types of the consensus router
(`PacketType` of the missing `concordium-common` crate), with consecutive
u16 codes in declaration order; unknown codes are rejected. -/
inductive PacketType
  | Block
  | Transaction
  | FinalizationMessage
  | FinalizationRecord
  | CatchUpStatus
deriving DecidableEq, Repr

/-- Modelled from the spec: `PacketType::try_from` on a u16 code. -/
def PacketType.tryFrom : Nat → Option PacketType
  | 0 => some .Block
  | 1 => some .Transaction
  | 2 => some .FinalizationMessage
  | 3 => some .FinalizationRecord
  | 4 => some .CatchUpStatus
  | _ => none

/-- The two bounded inbound consensus queues (`CALLBACK_QUEUE`): a
`try_send` succeeds while the queue holds fewer than `cap` messages and
reports `Full` otherwise.  (The `Disconnected` case only arises at node
shutdown and is outside this model.) -/
structure InboundQueues where
  lowCap : Nat
  low : List (List Nat)
  highCap : Nat
  high : List (List Nat)
deriving DecidableEq, Repr

/-- The drop and delivery counters around the inbound queues. -/
structure InboundStats where
  lowCount : Nat
  highCount : Nat
  lowDrops : Nat
  highDrops : Nat
deriving DecidableEq, Repr

/-- The source's `handle_pkt_out` (consensus.rs:150): require at least two
payload bytes, read the big-endian type code from them, reject unknown
codes, route `Transaction` to the low-priority queue and every other type
to the high-priority queue; a full queue drops the packet, bumps the
matching drop counter and still returns success. -/
def handlePktOut (qs : InboundQueues) (stats : InboundStats) (msg : List Nat) :
    Except String (InboundQueues × InboundStats) :=
  match msg with
  | b1 :: b2 :: _ =>
    match PacketType.tryFrom (b1 * 256 + b2) with
    | none => .error "invalid packet type code"
    | some pt =>
      if pt == PacketType.Transaction then
        if qs.low.length < qs.lowCap then
          .ok ({ qs with low := qs.low ++ [msg] }, { stats with lowCount := stats.lowCount + 1 })
        else
          .ok (qs, { stats with lowDrops := stats.lowDrops + 1 })
      else
        if qs.high.length < qs.highCap then
          .ok ({ qs with high := qs.high ++ [msg] }, { stats with highCount := stats.highCount + 1 })
        else
          .ok (qs, { stats with highDrops := stats.highDrops + 1 })
  | _ => .error "packet payload smaller than 2 bytes"

/-! ## Catch-up peer states (`check_peer_states`, `send_catch_up_status`)

`PeerList`, `PeerState` and `PeerStatus` come from the
`concordium-global-state` crate's `catch_up` module, which is not under
this tree; `MAX_CATCH_UP_TIME` comes from the missing `configuration`
module and is passed as a parameter. -/

/-- Modelled from the spec: the catch-up status of a peer. -/
inductive PeerStatus
  | Pending
  | CatchingUp
  | UpToDate
deriving DecidableEq, Repr

/-- Modelled from the spec: the catch-up peer list — a priority queue over
node ids keyed by the peer's status (`CatchingUp` preferred, then
`Pending`, then `UpToDate`) — plus the time of the last catch-up message
(`catch_up_stamp`). -/
structure PeerList where
  peers : List (Nat × PeerStatus)
  catchUpStamp : Nat
deriving DecidableEq, Repr

/-- Modelled from the spec: the priority of a status. -/
def statusRank : PeerStatus → Nat
  | .CatchingUp => 2
  | .Pending => 1
  | .UpToDate => 0

/-- Modelled from the spec: `peers.peek()`, a maximal-priority entry. -/
def PeerList.peek (pl : PeerList) : Option (Nat × PeerStatus) :=
  pl.peers.foldl
    (fun acc p =>
      match acc with
      | none => some p
      | some q => if statusRank q.2 < statusRank p.2 then some p else some q)
    none

/-- `PriorityQueue::change_priority`: give `id` the new status wherever it
occurs in the list. -/
def changePriority (peers : List (Nat × PeerStatus)) (id : Nat) (st : PeerStatus) :
    List (Nat × PeerStatus) :=
  peers.map fun p => if p.1 == id then (p.1, st) else p

/-- The node state that `check_peer_states` acts on: the catch-up peer
list, the connection table, whether `start_baker` has been invoked, and
the targets to which a `CatchUpStatus` direct message was enqueued. -/
structure CatchUpNode where
  peerList : PeerList
  connections : List Conn
  bakerStarted : Bool
  sentCatchUp : List Nat
deriving DecidableEq, Repr

/-- The source's `send_catch_up_status` (consensus.rs:382): mark the
target `CatchingUp`, stamp `catch_up_stamp` with the current time, and
send it a direct `CatchUpStatus` message. -/
def sendCatchUpStatus (now : Nat) (n : CatchUpNode) (target : Nat) : CatchUpNode :=
  { n with
    peerList :=
      { peers := changePriority n.peerList.peers target .CatchingUp, catchUpStamp := now }
    sentCatchUp := n.sentCatchUp ++ [target] }

/-- The source's `check_peer_states` (consensus.rs:432): look at the top
priority peer; a stalled `CatchingUp` peer (past
`catch_up_stamp + MAX_CATCH_UP_TIME`) has its connection removed, a
`Pending` peer is sent a catch-up status, an `UpToDate` top starts the
baker. -/
def checkPeerStates (now maxCatchUpTime : Nat) (n : CatchUpNode) : CatchUpNode :=
  match n.peerList.peek with
  | none => n
  | some (id, status) =>
    match status with
    | .CatchingUp =>
      if n.peerList.catchUpStamp + maxCatchUpTime < now then
        match findConnectionById n.connections id with
        | some c => { n with connections := removeConnection n.connections c.token }
        | none => n
      else n
    | .Pending => sendCatchUpStatus now n id
    | .UpToDate => { n with bakerStarted := true }

/-! ## Liveness: `handle_pong` (`src/connection/message_handlers.rs:130`) -/

/-- The latency-related connection counters
(`ConnectionStats`). -/
structure ConnStats where
  validLatency : Bool
  lastPingSent : Nat
  lastLatency : Nat
deriving DecidableEq, Repr

/-- The source's `handle_pong`: always flag the latency valid; when the
current time has not run behind `last_ping_sent`, record the round-trip
time. -/
def handlePong (now : Nat) (s : ConnStats) : ConnStats :=
  let s1 := { s with validLatency := true }
  if s1.lastPingSent ≤ now then { s1 with lastLatency := now - s1.lastPingSent } else s1

/-- Modelled from the spec: `Connection::send_ping` (in a connection
module not under this tree) stamps `last_ping_sent` with the send time of
the ping. -/
def sendPing (now : Nat) (s : ConnStats) : ConnStats := { s with lastPingSent := now }

/-! ## Buckets (`src/network/buckets.rs`)

A bucket is a `HashSet<Node>` whose `PartialEq`/`Hash` instances go
through the stored `P2PPeer`, and `P2PPeer`'s own `PartialEq`/`Hash`
compare the id alone (p2p_peer.rs:56) — so entry identity is the peer id.
The set is modelled as a list without id-duplicates in insertion order:
`HashSet::insert` keeps an already present entry untouched, while
`HashSet::replace` swaps the stored entry for the new one. -/

structure P2PPeer where
  id : Nat
  ip : Nat
  port : Nat
  peerType : PeerType
deriving DecidableEq, Repr

/-- A bucket entry (`buckets.rs::Node`). -/
structure BucketNode where
  peer : P2PPeer
  networks : List Nat
  last_seen : Nat
deriving DecidableEq, Repr

/-- `HashSet<Node>::insert`: no effect when an entry with an equal key
(the peer id) is present. -/
def bucketInsert (bucket : List BucketNode) (n : BucketNode) : List BucketNode :=
  if bucket.any fun m => m.peer.id == n.peer.id then bucket else bucket ++ [n]

/-- `HashSet<Node>::replace`: the entry with an equal key (the peer id) is
swapped for the new one. -/
def bucketReplace (bucket : List BucketNode) (n : BucketNode) : List BucketNode :=
  (bucket.filter fun m => !(m.peer.id == n.peer.id)) ++ [n]

/-- The `Buckets` store: `BUCKET_COUNT = 1`, so `buckets` is a
one-element vector of buckets; the operations all act on `buckets[0]`. -/
structure Buckets where
  buckets : List (List BucketNode)
deriving DecidableEq, Repr

/-- `Buckets::new()`. -/
def Buckets.new : Buckets := ⟨[[]]⟩

/-- The source's `insert_into_bucket`: a set insert of a fresh entry
(current networks, `last_seen = get_current_stamp()`) into `buckets[0]`.
(The `[]` arm is unreachable: `buckets` always holds `BUCKET_COUNT`
buckets.) -/
def insertIntoBucket (b : Buckets) (peer : P2PPeer) (networks : List Nat) (now : Nat) :
    Buckets :=
  match b.buckets with
  | bucket :: rest => ⟨bucketInsert bucket ⟨peer, networks, now⟩ :: rest⟩
  | [] => b

/-- The source's `update_network_ids`: a set replace of a fresh entry into
`buckets[0]`. -/
def updateNetworkIds (b : Buckets) (peer : P2PPeer) (networks : List Nat) (now : Nat) :
    Buckets :=
  match b.buckets with
  | bucket :: rest => ⟨bucketReplace bucket ⟨peer, networks, now⟩ :: rest⟩
  | [] => b

/-- The source's `Buckets::len` (buckets.rs:93): iterate over all stored
entries and sum the sizes of their network sets. -/
def Buckets.len (b : Buckets) : Nat :=
  (b.buckets.flatten.map fun n => n.networks.length).sum

/-- The source's `Buckets::is_empty`: `len() == 0`. -/
def Buckets.isEmpty (b : Buckets) : Bool := b.len == 0

/-- Number of stored entries, for contrast with `Buckets.len` (this is
what a set-size `len` would return). -/
def Buckets.entryCount (b : Buckets) : Nat := b.buckets.flatten.length

/-! # Theorems -/

/-! ## C8: `handle_pong` latency update -/

/-- C8: on receiving a Pong the connection always sets `valid_latency` to
true; whenever the current time is at least `last_ping_sent` it sets
`last_latency` to their difference, and otherwise leaves `last_latency`
unchanged; in particular a `send_ping` at time `t` followed by a Pong
handled at time `now ≥ t` records `last_latency = now - t`. -/
theorem handle_pong_spec (now : Nat) (s : ConnStats) :
    (handlePong now s).validLatency = true
    ∧ (s.lastPingSent ≤ now → (handlePong now s).lastLatency = now - s.lastPingSent)
    ∧ (now < s.lastPingSent → (handlePong now s).lastLatency = s.lastLatency)
    ∧ (∀ t, t ≤ now →
        (handlePong now (sendPing t s)).lastLatency = now - t
        ∧ (handlePong now (sendPing t s)).validLatency = true) := by
  unfold handlePong sendPing
  refine ⟨?_, ?_, ?_, ?_⟩
  · dsimp only; split <;> rfl
  · intro h; dsimp only; rw [if_pos h]
  · intro h; dsimp only; rw [if_neg (by omega)]
  · intro t ht; dsimp only; rw [if_pos ht]; exact ⟨rfl, rfl⟩

/-- Concrete instance of `handle_pong_spec`: a pong at time 10 after a
ping sent at time 4 gives latency 6; a pong at time 3 against a ping
stamp of 4 leaves the stored latency 9 unchanged. -/
theorem handle_pong_spec_witness :
    (handlePong 10 ⟨false, 4, 0⟩).validLatency = true
    ∧ (handlePong 10 ⟨false, 4, 0⟩).lastLatency = 6
    ∧ (handlePong 3 ⟨false, 4, 9⟩).lastLatency = 9
    ∧ (handlePong 10 (sendPing 4 ⟨false, 0, 0⟩)).lastLatency = 6 :=
  ⟨(handle_pong_spec 10 ⟨false, 4, 0⟩).1,
   (handle_pong_spec 10 ⟨false, 4, 0⟩).2.1 (by decide),
   (handle_pong_spec 3 ⟨false, 4, 9⟩).2.2.1 (by decide),
   ((handle_pong_spec 10 ⟨false, 0, 0⟩).2.2.2 4 (by decide)).1⟩

/-! ## C9: `Buckets::len` counts network ids, not peers -/

/-- C9: `Buckets::len` sums the sizes of the stored entries' network sets
(so it is not the entry count), and consequently `Buckets::is_empty` holds
exactly when every stored entry has an empty network set — in particular
for a bucket that does contain an entry, as the concrete instance at the
end shows. -/
theorem buckets_len_spec (b : Buckets) :
    Buckets.len b = (b.buckets.flatten.map fun n => n.networks.length).sum
    ∧ (Buckets.isEmpty b = true ↔ ∀ n ∈ b.buckets.flatten, n.networks = [])
    ∧ Buckets.isEmpty ⟨[[⟨⟨1, 0, 0, PeerType.Node⟩, [], 5⟩]]⟩ = true
    ∧ Buckets.entryCount ⟨[[⟨⟨1, 0, 0, PeerType.Node⟩, [], 5⟩]]⟩ = 1 := by
  refine ⟨rfl, ?_, by decide, by decide⟩
  unfold Buckets.isEmpty Buckets.len
  simp only [beq_iff_eq, List.sum_eq_zero_iff, List.mem_map, List.mem_flatten,
    forall_exists_index, and_imp]
  constructor
  · intro h n x hx hn; exact List.length_eq_zero.mp (h n.networks.length n x hx hn rfl)
  · rintro h k n x hx hn rfl; rw [h n x hx hn]; rfl

/-! ## C10: bucket insertion never refreshes an existing entry -/

/-- C10: because bucket entries compare and hash by peer id alone,
`insert_into_bucket` for a peer already in the bucket leaves the store
entirely unchanged — neither the stored networks nor `last_seen` move —
while `update_network_ids` replaces the stored entry, so afterwards the
entry carrying that id holds the fresh networks and the fresh
timestamp. -/
theorem insert_into_bucket_frame (bucket : List BucketNode) (peer : P2PPeer)
    (nets : List Nat) (now : Nat) (e : BucketNode)
    (he : e ∈ bucket) (hid : e.peer.id = peer.id) :
    insertIntoBucket ⟨[bucket]⟩ peer nets now = ⟨[bucket]⟩
    ∧ updateNetworkIds ⟨[bucket]⟩ peer nets now = ⟨[bucketReplace bucket ⟨peer, nets, now⟩]⟩
    ∧ (∀ d ∈ (updateNetworkIds ⟨[bucket]⟩ peer nets now).buckets.flatten,
        d.peer.id = peer.id → d.networks = nets ∧ d.last_seen = now) := by
  refine ⟨?_, rfl, ?_⟩
  · show Buckets.mk [bucketInsert bucket ⟨peer, nets, now⟩] = Buckets.mk [bucket]
    unfold bucketInsert
    rw [if_pos (List.any_eq_true.2 ⟨e, he, by simp [hid]⟩)]
  · intro d hd hdid
    have hd' : d ∈ bucketReplace bucket ⟨peer, nets, now⟩ := by
      have : (updateNetworkIds ⟨[bucket]⟩ peer nets now).buckets
          = [bucketReplace bucket ⟨peer, nets, now⟩] := rfl
      rw [this] at hd
      simpa using hd
    unfold bucketReplace at hd'
    rcases List.mem_append.1 hd' with h | h
    · exact absurd hdid (by simpa using (List.mem_filter.1 h).2)
    · rcases List.mem_singleton.1 h with rfl; exact ⟨rfl, rfl⟩

/-- Concrete instance of `insert_into_bucket_frame`: re-inserting peer id
1 with new networks and a new timestamp leaves the old entry, while
`update_network_ids` replaces it. -/
theorem insert_into_bucket_frame_witness :
    insertIntoBucket ⟨[[⟨⟨1, 2, 3, PeerType.Node⟩, [9], 100⟩]]⟩ ⟨1, 5, 6, PeerType.Node⟩ [8] 200
      = ⟨[[⟨⟨1, 2, 3, PeerType.Node⟩, [9], 100⟩]]⟩
    ∧ updateNetworkIds ⟨[[⟨⟨1, 2, 3, PeerType.Node⟩, [9], 100⟩]]⟩ ⟨1, 5, 6, PeerType.Node⟩ [8] 200
      = ⟨[bucketReplace [⟨⟨1, 2, 3, PeerType.Node⟩, [9], 100⟩] ⟨⟨1, 5, 6, PeerType.Node⟩, [8], 200⟩]⟩ :=
  ⟨(insert_into_bucket_frame [⟨⟨1, 2, 3, PeerType.Node⟩, [9], 100⟩] ⟨1, 5, 6, PeerType.Node⟩
      [8] 200 ⟨⟨1, 2, 3, PeerType.Node⟩, [9], 100⟩ (by decide) (by decide)).1,
   (insert_into_bucket_frame [⟨⟨1, 2, 3, PeerType.Node⟩, [9], 100⟩] ⟨1, 5, 6, PeerType.Node⟩
      [8] 200 ⟨⟨1, 2, 3, PeerType.Node⟩, [9], 100⟩ (by decide) (by decide)).2.1⟩

/-! ## C6: `handle_pkt_out` routing and backpressure -/

/-- C6: `handle_pkt_out` rejects payloads shorter than two bytes and
unknown big-endian type codes; a known `Transaction` goes to the
low-priority queue and every other known type to the high-priority queue;
when the target queue is full the packet is dropped, the matching drop
counter is bumped, and the handler still returns success. -/
theorem handle_pkt_out_spec (qs : InboundQueues) (stats : InboundStats) :
    (∀ msg : List Nat, msg.length < 2 → ∃ e, handlePktOut qs stats msg = .error e)
    ∧ (∀ b1 b2 : Nat, ∀ rest : List Nat, PacketType.tryFrom (b1 * 256 + b2) = none →
        handlePktOut qs stats (b1 :: b2 :: rest) = .error "invalid packet type code")
    ∧ (∀ b1 b2 : Nat, ∀ rest : List Nat,
        PacketType.tryFrom (b1 * 256 + b2) = some PacketType.Transaction →
        (qs.low.length < qs.lowCap →
          handlePktOut qs stats (b1 :: b2 :: rest)
            = .ok ({ qs with low := qs.low ++ [b1 :: b2 :: rest] },
                   { stats with lowCount := stats.lowCount + 1 }))
        ∧ (¬ qs.low.length < qs.lowCap →
          handlePktOut qs stats (b1 :: b2 :: rest)
            = .ok (qs, { stats with lowDrops := stats.lowDrops + 1 })))
    ∧ (∀ b1 b2 : Nat, ∀ rest : List Nat, ∀ pt : PacketType,
        PacketType.tryFrom (b1 * 256 + b2) = some pt → pt ≠ PacketType.Transaction →
        (qs.high.length < qs.highCap →
          handlePktOut qs stats (b1 :: b2 :: rest)
            = .ok ({ qs with high := qs.high ++ [b1 :: b2 :: rest] },
                   { stats with highCount := stats.highCount + 1 }))
        ∧ (¬ qs.high.length < qs.highCap →
          handlePktOut qs stats (b1 :: b2 :: rest)
            = .ok (qs, { stats with highDrops := stats.highDrops + 1 }))) := by
  refine ⟨?_, ?_, ?_, ?_⟩
  · intro msg hlen
    match msg with
    | [] => exact ⟨_, rfl⟩
    | [b] => exact ⟨_, rfl⟩
    | b1 :: b2 :: rest => simp at hlen; omega
  · intro b1 b2 rest h
    show (match PacketType.tryFrom (b1 * 256 + b2) with
      | none => (Except.error "invalid packet type code" :
          Except String (InboundQueues × InboundStats))
      | some pt => _) = _
    rw [h]
  · intro b1 b2 rest h
    constructor
    · intro hroom
      show (match PacketType.tryFrom (b1 * 256 + b2) with
        | none => (Except.error "invalid packet type code" :
            Except String (InboundQueues × InboundStats))
        | some pt => _) = _
      rw [h]
      show (if _ = true then _ else _) = _
      rw [if_pos (show (PacketType.Transaction == PacketType.Transaction) = true from rfl),
        if_pos hroom]
    · intro hfull
      show (match PacketType.tryFrom (b1 * 256 + b2) with
        | none => (Except.error "invalid packet type code" :
            Except String (InboundQueues × InboundStats))
        | some pt => _) = _
      rw [h]
      show (if _ = true then _ else _) = _
      rw [if_pos (show (PacketType.Transaction == PacketType.Transaction) = true from rfl),
        if_neg hfull]
  · intro b1 b2 rest pt h hpt
    constructor
    · intro hroom
      show (match PacketType.tryFrom (b1 * 256 + b2) with
        | none => (Except.error "invalid packet type code" :
            Except String (InboundQueues × InboundStats))
        | some pt => _) = _
      rw [h]
      show (if _ = true then _ else _) = _
      rw [if_neg (by simpa using hpt), if_pos hroom]
    · intro hfull
      show (match PacketType.tryFrom (b1 * 256 + b2) with
        | none => (Except.error "invalid packet type code" :
            Except String (InboundQueues × InboundStats))
        | some pt => _) = _
      rw [h]
      show (if _ = true then _ else _) = _
      rw [if_neg (by simpa using hpt), if_neg hfull]

/-- Concrete instance of `handle_pkt_out_spec`: a one-byte payload is
rejected, code 9999 is rejected, a transaction (code 1) lands in the empty
low queue, and a block (code 0) against a zero-capacity high queue is
dropped with the drop counter bumped and an `ok` result. -/
theorem handle_pkt_out_spec_witness :
    (∃ e, handlePktOut ⟨1, [], 0, []⟩ ⟨0, 0, 0, 0⟩ [5] = .error e)
    ∧ handlePktOut ⟨1, [], 0, []⟩ ⟨0, 0, 0, 0⟩ [39, 15, 3] = .error "invalid packet type code"
    ∧ handlePktOut ⟨1, [], 0, []⟩ ⟨0, 0, 0, 0⟩ [0, 1, 3]
      = .ok (⟨1, [[0, 1, 3]], 0, []⟩, ⟨1, 0, 0, 0⟩)
    ∧ handlePktOut ⟨1, [], 0, []⟩ ⟨0, 0, 0, 0⟩ [0, 0, 3]
      = .ok (⟨1, [], 0, []⟩, ⟨0, 0, 0, 1⟩) :=
  ⟨(handle_pkt_out_spec ⟨1, [], 0, []⟩ ⟨0, 0, 0, 0⟩).1 [5] (by decide),
   (handle_pkt_out_spec ⟨1, [], 0, []⟩ ⟨0, 0, 0, 0⟩).2.1 39 15 [3] (by decide),
   ((handle_pkt_out_spec ⟨1, [], 0, []⟩ ⟨0, 0, 0, 0⟩).2.2.1 0 1 [3] (by decide)).1 (by decide),
   ((handle_pkt_out_spec ⟨1, [], 0, []⟩ ⟨0, 0, 0, 0⟩).2.2.2 0 0 [3] PacketType.Block
      (by decide) (by decide)).2 (by decide)⟩

/-! ## C5: the failed-packets eviction threshold -/

/-- C5 counterexample: a post-handshake, recently seen connection whose
`failed_pkts` exactly equals `MAX_FAILED_PACKETS_ALLOWED` (and with no
maximum latency configured, so no other fault ground applies) IS evicted
by housekeeping, contradicting the claim that eviction requires the
counter to be strictly above the threshold. -/
theorem failed_pkts_at_threshold_evicted :
    isConnInactive PeerType.Node 100 1200000 300000 ⟨0, 1, true, PeerType.Node, [], 50, 100, 0⟩
      = false
    ∧ isConnWithoutHandshake 100 60000 ⟨0, 1, true, PeerType.Node, [], 50, 100, 0⟩ = false
    ∧ housekeepingKillFaulty PeerType.Node 100 none 1200000 300000 60000
        [⟨0, 1, true, PeerType.Node, [], 50, 100, 0⟩] = [] := by decide

/-- C5 (amended): with no maximum latency configured, a connection that is
neither inactive nor a stale pre-handshake one is evicted by housekeeping
exactly when its `failed_pkts` counter is greater than or equal to
`MAX_FAILED_PACKETS_ALLOWED` (both `connection_housekeeping` and
`cleanup_connections` compare with `>=`). -/
theorem failed_pkts_eviction_iff (selfType : PeerType) (currStamp mN mB mP : Nat)
    (conns : List Conn) (c : Conn) (hc : c ∈ conns)
    (hact : isConnInactive selfType currStamp mN mB c = false)
    (hhs : isConnWithoutHandshake currStamp mP c = false) :
    c ∈ housekeepingKillFaulty selfType currStamp none mN mB mP conns
      ↔ c.failedPkts < MAX_FAILED_PACKETS_ALLOWED := by
  unfold housekeepingKillFaulty
  rw [List.mem_filter]
  simp only [hc, true_and, hact, hhs, Bool.or_false, isConnFaulty, Bool.or_eq_true,
    Bool.not_eq_true', Bool.or_eq_false_iff, decide_eq_false_iff_not, not_le]

/-- Concrete instance of `failed_pkts_eviction_iff`: a connection with 49
failed packets survives the sweep. -/
theorem failed_pkts_eviction_iff_witness :
    ⟨0, 1, true, PeerType.Node, [], 49, 100, 0⟩ ∈
      housekeepingKillFaulty PeerType.Node 100 none 1200000 300000 60000
        [⟨0, 1, true, PeerType.Node, [], 49, 100, 0⟩] :=
  (failed_pkts_eviction_iff PeerType.Node 100 1200000 300000 60000
    [⟨0, 1, true, PeerType.Node, [], 49, 100, 0⟩] ⟨0, 1, true, PeerType.Node, [], 49, 100, 0⟩
    (by decide) (by decide) (by decide)).mpr (by decide)

/-! ## C7: `check_peer_states` -/

/-- C7: when the top of the catch-up peer list is `Pending`, the node
sends that peer a `CatchUpStatus` message, marks it `CatchingUp` and
stamps `catch_up_stamp` with the current time; when the top is
`CatchingUp` and the stamp has aged past `MAX_CATCH_UP_TIME`, the peer's
connection is removed (and nothing happens before that deadline); when
the top is `UpToDate`, the baker is started. -/
theorem check_peer_states_spec (now mct : Nat) (n : CatchUpNode) (id : Nat)
    (status : PeerStatus) (hpeek : n.peerList.peek = some (id, status)) :
    (status = PeerStatus.Pending →
      (checkPeerStates now mct n).peerList.catchUpStamp = now
      ∧ (checkPeerStates now mct n).peerList.peers
          = changePriority n.peerList.peers id PeerStatus.CatchingUp
      ∧ (∀ p ∈ (checkPeerStates now mct n).peerList.peers,
          p.1 = id → p.2 = PeerStatus.CatchingUp)
      ∧ (checkPeerStates now mct n).sentCatchUp = n.sentCatchUp ++ [id]
      ∧ (checkPeerStates now mct n).connections = n.connections)
    ∧ (status = PeerStatus.CatchingUp → n.peerList.catchUpStamp + mct < now →
        (∀ c, findConnectionById n.connections id = some c →
          (checkPeerStates now mct n).connections = removeConnection n.connections c.token
          ∧ c ∉ (checkPeerStates now mct n).connections)
        ∧ (findConnectionById n.connections id = none → checkPeerStates now mct n = n))
    ∧ (status = PeerStatus.CatchingUp → ¬ n.peerList.catchUpStamp + mct < now →
        checkPeerStates now mct n = n)
    ∧ (status = PeerStatus.UpToDate →
        (checkPeerStates now mct n).bakerStarted = true
        ∧ (checkPeerStates now mct n).connections = n.connections
        ∧ (checkPeerStates now mct n).peerList = n.peerList) := by
  refine ⟨?_, ?_, ?_, ?_⟩
  · rintro rfl
    have hrun : checkPeerStates now mct n = sendCatchUpStatus now n id := by
      unfold checkPeerStates; rw [hpeek]
    rw [hrun]
    unfold sendCatchUpStatus
    refine ⟨rfl, rfl, ?_, rfl, rfl⟩
    intro p hp hpid
    rcases List.mem_map.1 hp with ⟨q, _, hq⟩
    by_cases hqid : q.1 = id
    · rw [if_pos (by simpa using hqid)] at hq; rw [← hq]
    · rw [if_neg (by simpa using hqid)] at hq; rw [← hq] at hpid; exact absurd hpid hqid
  · rintro rfl hlate
    have hrun : checkPeerStates now mct n
        = (match findConnectionById n.connections id with
          | some c => { n with connections := removeConnection n.connections c.token }
          | none => n) := by
      unfold checkPeerStates; rw [hpeek]; dsimp only; rw [if_pos hlate]
    constructor
    · intro c hc
      rw [hrun, hc]
      refine ⟨rfl, ?_⟩
      intro hmem
      have := (List.mem_filter.1 hmem).2
      simp at this
    · intro hnone; rw [hrun, hnone]
  · rintro rfl hearly
    unfold checkPeerStates; rw [hpeek]; dsimp only; rw [if_neg hearly]
  · rintro rfl
    have hrun : checkPeerStates now mct n = { n with bakerStarted := true } := by
      unfold checkPeerStates; rw [hpeek]
    rw [hrun]
    exact ⟨rfl, rfl, rfl⟩

/-- Concrete instance of `check_peer_states_spec`, one run per branch of
the claim: a `Pending` top is sent a catch-up status, a stalled
`CatchingUp` top loses its connection, a fresh `CatchingUp` top changes
nothing, and an `UpToDate` top starts the baker. -/
theorem check_peer_states_spec_witness :
    (checkPeerStates 100 5 ⟨⟨[(7, PeerStatus.Pending)], 0⟩, [], false, []⟩).sentCatchUp = [7]
    ∧ (checkPeerStates 100 5 ⟨⟨[(7, PeerStatus.Pending)], 0⟩, [], false, []⟩).peerList.catchUpStamp
        = 100
    ∧ (checkPeerStates 100 5
        ⟨⟨[(7, PeerStatus.CatchingUp)], 0⟩, [⟨3, 7, true, PeerType.Node, [], 0, 0, 0⟩],
          false, []⟩).connections
        = removeConnection [⟨3, 7, true, PeerType.Node, [], 0, 0, 0⟩] 3
    ∧ checkPeerStates 100 5
        ⟨⟨[(7, PeerStatus.CatchingUp)], 98⟩, [⟨3, 7, true, PeerType.Node, [], 0, 0, 0⟩],
          false, []⟩
        = ⟨⟨[(7, PeerStatus.CatchingUp)], 98⟩, [⟨3, 7, true, PeerType.Node, [], 0, 0, 0⟩],
          false, []⟩
    ∧ (checkPeerStates 100 5 ⟨⟨[(7, PeerStatus.UpToDate)], 0⟩, [], false, []⟩).bakerStarted
        = true :=
  ⟨((check_peer_states_spec 100 5 ⟨⟨[(7, PeerStatus.Pending)], 0⟩, [], false, []⟩ 7
      PeerStatus.Pending (by decide)).1 rfl).2.2.2.1,
   ((check_peer_states_spec 100 5 ⟨⟨[(7, PeerStatus.Pending)], 0⟩, [], false, []⟩ 7
      PeerStatus.Pending (by decide)).1 rfl).1,
   (((check_peer_states_spec 100 5
      ⟨⟨[(7, PeerStatus.CatchingUp)], 0⟩, [⟨3, 7, true, PeerType.Node, [], 0, 0, 0⟩], false, []⟩
      7 PeerStatus.CatchingUp (by decide)).2.1 rfl (by decide)).1
      ⟨3, 7, true, PeerType.Node, [], 0, 0, 0⟩ (by decide)).1,
   (check_peer_states_spec 100 5
      ⟨⟨[(7, PeerStatus.CatchingUp)], 98⟩, [⟨3, 7, true, PeerType.Node, [], 0, 0, 0⟩], false, []⟩
      7 PeerStatus.CatchingUp (by decide)).2.2.1 rfl (by decide),
   ((check_peer_states_spec 100 5 ⟨⟨[(7, PeerStatus.UpToDate)], 0⟩, [], false, []⟩ 7
      PeerStatus.UpToDate (by decide)).2.2.2 rfl).1⟩

/-! ## C4: ban enforcement and (non-)persistence -/

/-- C4 counterexample: banning id 42 does set `is_banned` and it does
survive until the node is torn down, but constructing a new `P2PNode`
over the same data directory runs `clear_bans` (p2p_node.rs:413), so
after a restart `is_banned(ById 42)` is `false`, contrary to the claim;
moreover, when two table entries carry remote id 42, `ban_node` only
removes the one `find_connection_by_id` returns, so a connection with the
banned id remains. -/
theorem ban_not_persistent_cex :
    isBanned (banNodeById ⟨[], []⟩ 42) (BanId.ById 42) = true
    ∧ isBanned (restartNode (banNodeById ⟨[], []⟩ 42)) (BanId.ById 42) = false
    ∧ ((banNodeById ⟨[], [⟨1, 42, true, PeerType.Node, [], 0, 0, 0⟩,
          ⟨2, 42, true, PeerType.Node, [], 0, 0, 0⟩]⟩ 42).connections.any
        fun c => c.remoteIdOpt == some 42) = true := by decide

/-- C4 (amended): after `ban(ById(id))` succeeds, `is_banned(ById(id))`
is true and — provided the table held at most one connection with that
remote id, as housekeeping guarantees — no connection with remote id `id`
remains; a subsequent handshake claiming id `id` is rejected and its
connection dropped; after a restart (a new `P2PNode` over the same data
directory) `is_banned(ById(id))` is `false`, because `P2PNode::new`
clears the persistent ban store. -/
theorem ban_by_id_spec (s : NodeState) (id tok : Nat)
    (huniq : ∀ c ∈ s.connections, ∀ d ∈ s.connections,
      c.remoteIdOpt = some id → d.remoteIdOpt = some id → c = d) :
    isBanned (banNodeById s id) (BanId.ById id) = true
    ∧ (∀ c ∈ (banNodeById s id).connections, c.remoteIdOpt ≠ some id)
    ∧ (handleHandshakeReq (banNodeById s id) tok id).2 = false
    ∧ (handleHandshakeReq (banNodeById s id) tok id).1.connections
        = removeConnection (banNodeById s id).connections tok
    ∧ isBanned (restartNode (banNodeById s id)) (BanId.ById id) = false := by
  have hban : isBanned (banNodeById s id) (BanId.ById id) = true := by
    unfold isBanned banNodeById
    dsimp only
    split
    · assumption
    · simp
  refine ⟨hban, ?_, ?_, ?_, rfl⟩
  · intro c hc hcid
    unfold banNodeById at hc
    dsimp only at hc
    rcases hfind : findConnectionById s.connections id with _ | d
    · rw [hfind] at hc
      have := List.find?_eq_none.1 hfind c hc
      simp [hcid] at this
    · rw [hfind] at hc
      have hd := List.find?_some hfind
      have hdmem := List.mem_of_find?_eq_some hfind
      have hdid : d.remoteIdOpt = some id := by simpa using hd
      have hcmem : c ∈ s.connections := (List.mem_filter.1 hc).1
      have hcd : c = d := huniq c hcmem d hdmem hcid hdid
      have := (List.mem_filter.1 hc).2
      rw [hcd] at this
      simp at this
  · unfold handleHandshakeReq
    rw [if_pos hban]
  · unfold handleHandshakeReq
    rw [if_pos hban]

/-- Concrete instance of `ban_by_id_spec`: ban id 42 on a node with one
matching connection. -/
theorem ban_by_id_spec_witness :
    isBanned (banNodeById ⟨[], [⟨1, 42, true, PeerType.Node, [], 0, 0, 0⟩]⟩ 42)
      (BanId.ById 42) = true
    ∧ (handleHandshakeReq (banNodeById ⟨[], [⟨1, 42, true, PeerType.Node, [], 0, 0, 0⟩]⟩ 42)
        9 42).2 = false
    ∧ isBanned (restartNode (banNodeById ⟨[], [⟨1, 42, true, PeerType.Node, [], 0, 0, 0⟩]⟩ 42))
        (BanId.ById 42) = false :=
  ⟨(ban_by_id_spec ⟨[], [⟨1, 42, true, PeerType.Node, [], 0, 0, 0⟩]⟩ 42 9 (by decide)).1,
   (ban_by_id_spec ⟨[], [⟨1, 42, true, PeerType.Node, [], 0, 0, 0⟩]⟩ 42 9 (by decide)).2.2.1,
   (ban_by_id_spec ⟨[], [⟨1, 42, true, PeerType.Node, [], 0, 0, 0⟩]⟩ 42 9 (by decide)).2.2.2.2⟩

/-! ## C2: broadcast fan-out -/

/-- C2, evaluated at the failing input: with
`relay_broadcast_percentage = 0 < 1`, `process_network_packet` computes
the subset selected for relaying (here necessarily empty, since
`floor(len * 0) = 0`) and then uses it as `peers_to_skip`, discarding the
exclusion list.  Against a table with the single post-handshake node
connection of remote id 1 on network 7, a broadcast from source 2 with
exclusion list `E = [1]` is relayed TO the excluded peer 1, while the
spec's eligible set (for any self id, here 9) is empty — so the forwarded
set is neither the chosen fraction of the eligible set nor even a subset
of it. -/
theorem broadcast_relay_inverts_selection :
    peersToSkipBroadcast 0 (fun n l => l.take n)
      [⟨0, 1, true, PeerType.Node, [7], 0, 0, 0⟩] [1] = []
    ∧ broadcastRecipients [⟨0, 1, true, PeerType.Node, [7], 0, 0, 0⟩] 2 [1] 7 0
        (fun n l => l.take n)
      = [⟨0, 1, true, PeerType.Node, [7], 0, 0, 0⟩]
    ∧ specBroadcastEligible [⟨0, 1, true, PeerType.Node, [7], 0, 0, 0⟩] 9 2 [1] 7 = [] := by
  have hskip : peersToSkipBroadcast 0 (fun n l => l.take n)
      [⟨0, 1, true, PeerType.Node, [7], 0, 0, 0⟩] [1] = [] := by
    unfold peersToSkipBroadcast
    rw [if_pos (by norm_num : (0 : ℚ) < 1)]
    dsimp only
    rw [mul_zero, Int.floor_zero, Int.toNat_zero]
    exact List.take_zero _
  refine ⟨hskip, ?_, by decide⟩
  unfold broadcastRecipients
  rw [hskip]
  decide

/-! ## C3: duplicate-id reaping at housekeeping -/

/-- Elements produced by `dedupFrom` come from the run it consumed. -/
theorem dedupFrom_subset : ∀ (l : List Conn) (a : Conn), dedupFrom a l ⊆ a :: l := by
  intro l
  induction l with
  | nil => intro a x hx; exact hx
  | cons b t ih =>
    intro a x hx
    unfold dedupFrom at hx
    split at hx
    · rcases List.mem_cons.1 (ih a hx) with h | h
      · simp [h]
      · simp [h]
    · rcases List.mem_cons.1 hx with h | h
      · simp [h]
      · rcases List.mem_cons.1 (ih b h) with h' | h'
        · simp [h']
        · simp [h']

/-- Splitting a sorted cons: the head is below the tail of the tail as
well. -/
theorem sorted_cons_of_cons_cons {a b : Conn} {t : List Conn}
    (hs : List.Sorted connKeyLe (a :: b :: t)) : List.Sorted connKeyLe (a :: t) := by
  rw [List.sorted_cons]
  exact ⟨fun x hx => (List.sorted_cons.1 hs).1 x (by simp [hx]),
    (List.sorted_cons.1 (List.sorted_cons.1 hs).2).2⟩

/-- In a run sorted by `(remote_id, Reverse(token))`, every consumed
connection is represented in the `dedupFrom` output by a survivor with
the same id and a token at least as large. -/
theorem dedupFrom_max : ∀ (l : List Conn) (a : Conn),
    List.Sorted connKeyLe (a :: l) →
    ∀ c ∈ a :: l, ∃ d ∈ dedupFrom a l, d.remoteId = c.remoteId ∧ c.token ≤ d.token := by
  intro l
  induction l with
  | nil =>
    intro a _ c hc
    rcases List.mem_singleton.1 hc with h
    subst h
    exact ⟨c, List.mem_singleton.2 rfl, rfl, le_refl _⟩
  | cons b t ih =>
    intro a hs c hc
    have hab : connKeyLe a b := (List.sorted_cons.1 hs).1 b (by simp)
    have hat : List.Sorted connKeyLe (a :: t) := sorted_cons_of_cons_cons hs
    unfold dedupFrom
    split
    · rename_i heq
      rcases List.mem_cons.1 hc with h | hc'
      · subst h
        exact ih c hat c (by simp)
      · rcases List.mem_cons.1 hc' with h | hc''
        · subst h
          rcases ih a hat a (by simp) with ⟨d, hd, hdid, hdtok⟩
          refine ⟨d, hd, by omega, ?_⟩
          have hcb : c.token ≤ a.token := by
            rcases hab with h | ⟨_, h⟩
            · omega
            · exact h
          omega
        · exact ih a hat c (by simp [hc''])
    · rcases List.mem_cons.1 hc with h | hc'
      · subst h
        exact ⟨c, by simp, rfl, le_refl _⟩
      · rcases ih b (List.sorted_cons.1 hs).2 c hc' with ⟨d, hd, hdid, hdtok⟩
        exact ⟨d, by simp [hd], hdid, hdtok⟩

/-- In a sorted run, the `dedupFrom` output has pairwise distinct ids. -/
theorem dedupFrom_pairwise : ∀ (l : List Conn) (a : Conn),
    List.Sorted connKeyLe (a :: l) →
    List.Pairwise (fun x y => x.remoteId ≠ y.remoteId) (dedupFrom a l) := by
  intro l
  induction l with
  | nil => intro a _; simp [dedupFrom]
  | cons b t ih =>
    intro a hs
    have hab : connKeyLe a b := (List.sorted_cons.1 hs).1 b (by simp)
    have hat : List.Sorted connKeyLe (a :: t) := sorted_cons_of_cons_cons hs
    unfold dedupFrom
    split
    · exact ih a hat
    · rename_i hne
      rw [List.pairwise_cons]
      refine ⟨?_, ih b (List.sorted_cons.1 hs).2⟩
      intro d hd
      have hdmem : d ∈ b :: t := dedupFrom_subset t b hd
      have haltb : a.remoteId < b.remoteId := by
        rcases hab with h | ⟨h, _⟩
        · exact h
        · exact absurd h hne
      rcases List.mem_cons.1 hdmem with h | hdt
      · subst h; omega
      · have hbd : connKeyLe b d := (List.sorted_cons.1 (List.sorted_cons.1 hs).2).1 d hdt
        rcases hbd with h | ⟨h, _⟩ <;> omega

/-- `dedup_by_key` only keeps elements of its input. -/
theorem dedupByRemoteId_subset (l : List Conn) : dedupByRemoteId l ⊆ l := by
  cases l with
  | nil => intro x hx; exact absurd hx (List.not_mem_nil x)
  | cons a t => exact dedupFrom_subset t a

/-- Over a sorted input, every element is represented in the
`dedup_by_key` output by one with the same id and a token at least as
large. -/
theorem dedupByRemoteId_max (l : List Conn) (hs : List.Sorted connKeyLe l) :
    ∀ c ∈ l, ∃ d ∈ dedupByRemoteId l, d.remoteId = c.remoteId ∧ c.token ≤ d.token := by
  cases l with
  | nil => intro c hc; exact absurd hc (List.not_mem_nil c)
  | cons a t => exact dedupFrom_max t a hs

/-- Over a sorted input, the `dedup_by_key` output has pairwise distinct
ids. -/
theorem dedupByRemoteId_pairwise (l : List Conn) (hs : List.Sorted connKeyLe l) :
    List.Pairwise (fun x y => x.remoteId ≠ y.remoteId) (dedupByRemoteId l) := by
  cases l with
  | nil => simp [dedupByRemoteId]
  | cons a t => exact dedupFrom_pairwise t a hs

/-- A list pairwise-distinct under a projection maps equal projections to
equal elements. -/
theorem pairwise_ne_inj (f : Conn → Nat) :
    ∀ (l : List Conn), List.Pairwise (fun a b => f a ≠ f b) l →
    ∀ c ∈ l, ∀ d ∈ l, f c = f d → c = d := by
  intro l
  induction l with
  | nil => intro _ c hc; exact absurd hc (List.not_mem_nil c)
  | cons a t ih =>
    intro hp c hc d hd hfd
    have hp' := List.pairwise_cons.1 hp
    rcases List.mem_cons.1 hc with h | hc' <;> rcases List.mem_cons.1 hd with h' | hd'
    · rw [h, h']
    · subst h; exact absurd hfd (hp'.1 d hd')
    · subst h'; exact absurd hfd.symm (hp'.1 c hc')
    · exact ih hp'.2 c hc' d hd' hfd

/-- C3 counterexample: two post-handshake connections with the same
remote id 5 and tokens 1 and 2 — housekeeping keeps the connection with
token 2, the HIGHER token, not the lower one as claimed (the sort key is
`(remote_id, Reverse(token))` and `dedup_by_key` keeps the first of each
run). -/
theorem housekeeping_dedup_keeps_higher_token :
    housekeepingDedup [⟨1, 5, true, PeerType.Node, [], 0, 0, 0⟩,
        ⟨2, 5, true, PeerType.Node, [], 0, 0, 0⟩]
      = [⟨2, 5, true, PeerType.Node, [], 0, 0, 0⟩] := by decide

/-- C3 (amended): after the deduplication step of
`connection_housekeeping`, on a table with pairwise distinct tokens, the
surviving connections are post-handshake, at most one survivor carries any
given remote id, and every post-handshake connection of the original
table is represented by a survivor with the same remote id and a token at
least as large — i.e. the survivor of a duplicated id is the connection
with the HIGHEST token. -/
theorem housekeeping_dedup_spec (conns : List Conn)
    (htok : List.Pairwise (fun a b => a.token ≠ b.token) conns) :
    (∀ c ∈ housekeepingDedup conns, c ∈ conns ∧ c.isPostHandshake = true)
    ∧ (∀ c ∈ housekeepingDedup conns, ∀ d ∈ housekeepingDedup conns,
        c.remoteId = d.remoteId → c = d)
    ∧ (∀ c ∈ conns, c.isPostHandshake = true →
        ∃ d ∈ housekeepingDedup conns, d.remoteId = c.remoteId ∧ c.token ≤ d.token) := by
  have hsorted : List.Sorted connKeyLe
      ((conns.filter (·.isPostHandshake)).insertionSort connKeyLe) :=
    List.sorted_insertionSort connKeyLe _
  have hperm : ((conns.filter (·.isPostHandshake)).insertionSort connKeyLe).Perm
      (conns.filter (·.isPostHandshake)) := List.perm_insertionSort connKeyLe _
  have hkeep_sub : dedupByRemoteId ((conns.filter (·.isPostHandshake)).insertionSort connKeyLe)
      ⊆ conns.filter (·.isPostHandshake) :=
    fun x hx => hperm.subset (dedupByRemoteId_subset _ hx)
  have hmem_result : ∀ c, c ∈ housekeepingDedup conns ↔ c ∈ conns ∧
      ∃ k ∈ dedupByRemoteId ((conns.filter (·.isPostHandshake)).insertionSort connKeyLe),
        k.token = c.token := by
    intro c
    unfold housekeepingDedup
    rw [List.mem_filter]
    simp only [List.any_eq_true, beq_iff_eq]
  have hkeeper_eq : ∀ c ∈ conns,
      ∀ k ∈ dedupByRemoteId ((conns.filter (·.isPostHandshake)).insertionSort connKeyLe),
      k.token = c.token → c = k := by
    intro c hc k hk htk
    have hkconns : k ∈ conns := (List.mem_filter.1 (hkeep_sub hk)).1
    exact pairwise_ne_inj (fun x => x.token) conns htok c hc k hkconns htk.symm
  have hpw : List.Pairwise (fun x y => x.remoteId ≠ y.remoteId)
      (dedupByRemoteId ((conns.filter (·.isPostHandshake)).insertionSort connKeyLe)) :=
    dedupByRemoteId_pairwise _ hsorted
  refine ⟨?_, ?_, ?_⟩
  · intro c hc
    rcases (hmem_result c).1 hc with ⟨hcc, k, hk, htk⟩
    have hck : c = k := hkeeper_eq c hcc k hk htk
    have hkph : k ∈ conns.filter (·.isPostHandshake) := hkeep_sub hk
    exact ⟨hcc, by rw [hck]; simpa using (List.mem_filter.1 hkph).2⟩
  · intro c hc d hd hid
    rcases (hmem_result c).1 hc with ⟨hcc, k, hk, htk⟩
    rcases (hmem_result d).1 hd with ⟨hdc, k', hk', htk'⟩
    have hck : c = k := hkeeper_eq c hcc k hk htk
    have hdk : d = k' := hkeeper_eq d hdc k' hk' htk'
    rw [hck, hdk]
    exact pairwise_ne_inj (fun x => x.remoteId) _ hpw k hk k' hk'
      (by rw [← hck, ← hdk]; exact hid)
  · intro c hc hph
    have hcph : c ∈ conns.filter (·.isPostHandshake) := List.mem_filter.2 ⟨hc, by simp [hph]⟩
    have hcs : c ∈ (conns.filter (·.isPostHandshake)).insertionSort connKeyLe :=
      hperm.mem_iff.2 hcph
    rcases dedupByRemoteId_max _ hsorted c hcs with ⟨d, hd, hdid, hdtok⟩
    have hdconns : d ∈ conns := (List.mem_filter.1 (hkeep_sub hd)).1
    exact ⟨d, (hmem_result d).2 ⟨hdconns, d, hd, rfl⟩, hdid, hdtok⟩

/-- Concrete instance of `housekeeping_dedup_spec`: among two connections
sharing remote id 5 (tokens 1 and 2), one survivor remains and it carries
a token at least as large as either. -/
theorem housekeeping_dedup_spec_witness :
    ∃ d ∈ housekeepingDedup [⟨1, 5, true, PeerType.Node, [], 0, 0, 0⟩,
        ⟨2, 5, true, PeerType.Node, [], 0, 0, 0⟩],
      d.remoteId = 5 ∧ 2 ≤ d.token :=
  (housekeeping_dedup_spec [⟨1, 5, true, PeerType.Node, [], 0, 0, 0⟩,
      ⟨2, 5, true, PeerType.Node, [], 0, 0, 0⟩] (by decide)).2.2
    ⟨2, 5, true, PeerType.Node, [], 0, 0, 0⟩ (by decide) (by decide)

/-! ## C1: the frame round-trip -/

/-- The chunking fuel is irrelevant once it covers the list length. -/
theorem chunksOfAux_congr (k : Nat) (hk : 0 < k) :
    ∀ (f1 f2 : Nat) (l : List Nat), l.length ≤ f1 → l.length ≤ f2 →
    chunksOfAux k f1 l = chunksOfAux k f2 l := by
  intro f1
  induction f1 with
  | zero =>
    intro f2 l h1 _
    have : l = [] := List.length_eq_zero.1 (by omega)
    subst this
    cases f2 <;> rfl
  | succ f ih =>
    intro f2 l h1 h2
    cases l with
    | nil => cases f2 <;> rfl
    | cons a t =>
      cases f2 with
      | zero => simp at h2
      | succ f2' =>
        show (a :: t).take k :: chunksOfAux k f ((a :: t).drop k)
            = (a :: t).take k :: chunksOfAux k f2' ((a :: t).drop k)
        congr 1
        apply ih
        · rw [List.length_drop]; simp at h1; simp; omega
        · rw [List.length_drop]; simp at h2; simp; omega

/-- Unfolding `chunksOf` one chunk at a time. -/
theorem chunksOf_cons (k : Nat) (hk : 0 < k) (l : List Nat) (hl : l ≠ []) :
    chunksOf k l = l.take k :: chunksOf k (l.drop k) := by
  cases l with
  | nil => exact absurd rfl hl
  | cons a t =>
    show (a :: t).take k :: chunksOfAux k t.length ((a :: t).drop k)
        = (a :: t).take k :: chunksOfAux k ((a :: t).drop k).length ((a :: t).drop k)
    congr 1
    apply chunksOfAux_congr k hk
    · rw [List.length_drop]; simp; omega
    · exact le_refl _

/-- A nonempty string no longer than the chunk size is one chunk. -/
theorem chunksOf_single (k : Nat) (hk : 0 < k) (l : List Nat) (hl : l ≠ [])
    (hlen : l.length ≤ k) : chunksOf k l = [l] := by
  rw [chunksOf_cons k hk l hl]
  rw [List.take_of_length_le hlen, List.drop_eq_nil_of_le hlen]
  rfl

/-- Chunking cuts off an exactly chunk-sized head. -/
theorem chunksOf_exact_append (k : Nat) (hk : 0 < k) (x rest : List Nat)
    (hx : x.length = k) : chunksOf k (x ++ rest) = x :: chunksOf k rest := by
  have hxne : x ≠ [] := by
    intro h; subst h; simp at hx; omega
  rw [chunksOf_cons k hk (x ++ rest) (by simp [hxne])]
  rw [← hx, List.take_left, List.drop_left]

/-- The sealed chunks of a message occupy exactly `full_msg_len` bytes:
the length prefix written by `encrypt_and_enqueue` is the length of the
frame body it enqueues. -/
theorem sealChunks_length (C : NoiseCipher) :
    ∀ (n : Nat) (m : List Nat) (i : Nat), m.length ≤ n →
    (sealChunks C i (chunksOf NOISE_MAX_PAYLOAD_LEN m)).length = fullMsgLen m.length := by
  intro n
  induction n with
  | zero =>
    intro m i h
    have : m = [] := List.length_eq_zero.1 (by omega)
    subst this
    rfl
  | succ n ih =>
    intro m i h
    by_cases hm : m = []
    · subst hm; rfl
    · rw [chunksOf_cons NOISE_MAX_PAYLOAD_LEN (by decide) m hm]
      show (C.sendMessage i (m.take NOISE_MAX_PAYLOAD_LEN)
          ++ sealChunks C (i + 1) (chunksOf NOISE_MAX_PAYLOAD_LEN
            (m.drop NOISE_MAX_PAYLOAD_LEN))).length = fullMsgLen m.length
      rw [List.length_append, C.send_length,
        ih (m.drop NOISE_MAX_PAYLOAD_LEN) (i + 1)
          (by have hp : 0 < NOISE_MAX_PAYLOAD_LEN := by decide
              rw [List.length_drop]
              omega)]
      rw [List.length_take, List.length_drop]
      have hmlen : 0 < m.length := List.length_pos.2 hm
      unfold fullMsgLen lastChunkLen NOISE_MAX_PAYLOAD_LEN NOISE_MAX_MESSAGE_LEN MAC_LENGTH
      split_ifs <;> omega

/-- A nonempty message has a nonzero frame length. -/
theorem fullMsgLen_pos (len : Nat) (h : 0 < len) : 0 < fullMsgLen len := by
  unfold fullMsgLen lastChunkLen NOISE_MAX_PAYLOAD_LEN NOISE_MAX_MESSAGE_LEN MAC_LENGTH
  split_ifs <;> omega

/-- Decrypting the sealed chunks of a message restores the message:
re-chunking the frame body at `NOISE_MAX_MESSAGE_LEN` boundaries recovers
exactly the sealed chunks (each full sealed chunk has length
`NOISE_MAX_MESSAGE_LEN`; only the last is shorter), and the session
inverts each seal. -/
theorem openChunks_sealChunks (C : NoiseCipher) :
    ∀ (n : Nat) (m : List Nat) (i : Nat), m.length ≤ n → m ≠ [] →
    openChunks C i (chunksOf NOISE_MAX_MESSAGE_LEN
      (sealChunks C i (chunksOf NOISE_MAX_PAYLOAD_LEN m))) = some m := by
  intro n
  induction n with
  | zero =>
    intro m i h hne
    exact absurd (List.length_eq_zero.1 (by omega)) hne
  | succ n ih =>
    intro m i h hne
    by_cases hsmall : m.length ≤ NOISE_MAX_PAYLOAD_LEN
    · rw [chunksOf_single NOISE_MAX_PAYLOAD_LEN (by decide) m hne hsmall]
      have hseal : sealChunks C i [m] = C.sendMessage i m := by
        show C.sendMessage i m ++ sealChunks C (i + 1) [] = C.sendMessage i m
        show C.sendMessage i m ++ [] = C.sendMessage i m
        exact List.append_nil _
      rw [hseal]
      have hctlen : (C.sendMessage i m).length ≤ NOISE_MAX_MESSAGE_LEN := by
        rw [C.send_length]
        have : NOISE_MAX_PAYLOAD_LEN + MAC_LENGTH = NOISE_MAX_MESSAGE_LEN := by decide
        omega
      have hctne : C.sendMessage i m ≠ [] := by
        apply List.ne_nil_of_length_pos
        rw [C.send_length]
        have : 0 < MAC_LENGTH := by decide
        omega
      rw [chunksOf_single NOISE_MAX_MESSAGE_LEN (by decide) _ hctne hctlen]
      show (match C.recvMessage i (C.sendMessage i m) with
        | none => (none : Option (List Nat))
        | some pt =>
          match openChunks C (i + 1) [] with
          | none => none
          | some rest => some (pt ++ rest)) = some m
      rw [C.recv_send]
      show some (m ++ []) = some m
      rw [List.append_nil]
    · rw [chunksOf_cons NOISE_MAX_PAYLOAD_LEN (by decide) m hne]
      show openChunks C i (chunksOf NOISE_MAX_MESSAGE_LEN
        (C.sendMessage i (m.take NOISE_MAX_PAYLOAD_LEN)
          ++ sealChunks C (i + 1) (chunksOf NOISE_MAX_PAYLOAD_LEN
            (m.drop NOISE_MAX_PAYLOAD_LEN)))) = some m
      rw [chunksOf_exact_append NOISE_MAX_MESSAGE_LEN (by decide) _ _
        (by rw [C.send_length, List.length_take]
            have : NOISE_MAX_PAYLOAD_LEN + MAC_LENGTH = NOISE_MAX_MESSAGE_LEN := by decide
            omega)]
      show (match C.recvMessage i (C.sendMessage i (m.take NOISE_MAX_PAYLOAD_LEN)) with
        | none => (none : Option (List Nat))
        | some pt =>
          match openChunks C (i + 1) (chunksOf NOISE_MAX_MESSAGE_LEN
            (sealChunks C (i + 1) (chunksOf NOISE_MAX_PAYLOAD_LEN
              (m.drop NOISE_MAX_PAYLOAD_LEN)))) with
          | none => none
          | some rest => some (pt ++ rest)) = some m
      rw [C.recv_send]
      rw [ih (m.drop NOISE_MAX_PAYLOAD_LEN) (i + 1)
        (by have hp : 0 < NOISE_MAX_PAYLOAD_LEN := by decide
            rw [List.length_drop]
            omega)
        (by apply List.ne_nil_of_length_pos
            rw [List.length_drop]
            omega)]
      show some (m.take NOISE_MAX_PAYLOAD_LEN ++ m.drop NOISE_MAX_PAYLOAD_LEN) = some m
      rw [List.take_append_drop]

/-- Big-endian length-field round-trip for `u32`-sized values. -/
theorem fromBe32_toBe32 (L : Nat) (h : L < 2 ^ 32) :
    fromBe32 (L / 2 ^ 24 % 256) (L / 2 ^ 16 % 256) (L / 2 ^ 8 % 256) (L % 256) = L := by
  unfold fromBe32
  omega

/-- Consuming the four length bytes of a well-sized frame puts the
accumulator into the body-collection state. -/
theorem processBytes_header (C : NoiseCipher) (L : Nat) (rest : List Nat)
    (h0 : 0 < L) (hmax : L ≤ PROTOCOL_MAX_MESSAGE_SIZE) :
    processBytes C IncomingMessage.initial (toBe32 L ++ rest)
      = processBytes C ⟨[], L, []⟩ rest := by
  have hlt : L < 2 ^ 32 := by
    unfold PROTOCOL_MAX_MESSAGE_SIZE at hmax
    omega
  have hbe := fromBe32_toBe32 L hlt
  have h4 : feedByte C ⟨[L / 2 ^ 24 % 256, L / 2 ^ 16 % 256, L / 2 ^ 8 % 256], 0, []⟩ (L % 256)
      = .ok (⟨[], L, []⟩, none) := by
    show (if fromBe32 (L / 2 ^ 24 % 256) (L / 2 ^ 16 % 256) (L / 2 ^ 8 % 256) (L % 256) = 0
        then (Except.error "I got a zero-sized message" :
          Except String (IncomingMessage × Option (List Nat)))
        else if PROTOCOL_MAX_MESSAGE_SIZE
            < fromBe32 (L / 2 ^ 24 % 256) (L / 2 ^ 16 % 256) (L / 2 ^ 8 % 256) (L % 256)
        then .error "expected message size exceeds the maximum protocol size"
        else .ok (⟨[], fromBe32 (L / 2 ^ 24 % 256) (L / 2 ^ 16 % 256) (L / 2 ^ 8 % 256)
          (L % 256), []⟩, none)) = .ok (⟨[], L, []⟩, none)
    rw [hbe, if_neg (by omega), if_neg (by omega)]
  have hstep : processBytes C IncomingMessage.initial (toBe32 L ++ rest)
      = match feedByte C ⟨[L / 2 ^ 24 % 256, L / 2 ^ 16 % 256, L / 2 ^ 8 % 256], 0, []⟩
          (L % 256) with
        | .error e => .error e
        | .ok (st', none) => processBytes C st' rest
        | .ok (st', some m) =>
          match processBytes C st' rest with
          | .error e => .error e
          | .ok (st'', ms) => .ok (st'', m :: ms) := rfl
  rw [hstep, h4]

/-- Collecting a frame body of the declared length ends with the body
decrypted (behind any ciphertext already accumulated) and the accumulator
reset. -/
theorem processBytes_body (C : NoiseCipher) :
    ∀ (body : List Nat) (k : Nat) (acc : List Nat), body.length = k → 0 < k →
    processBytes C ⟨[], k, acc⟩ body
      = match decryptMsg C (acc ++ body) with
        | some m => .ok (IncomingMessage.initial, [m])
        | none => .error "decryption failure" := by
  intro body
  induction body with
  | nil =>
    intro k acc hk h0
    simp at hk
    omega
  | cons b bs ih =>
    intro k acc hk h0
    by_cases hk1 : k = 1
    · subst hk1
      have hbs : bs = [] := by simpa using hk
      subst hbs
      have hfb : feedByte C ⟨[], 1, acc⟩ b
          = match decryptMsg C (acc ++ [b]) with
            | some m => .ok (IncomingMessage.initial, some m)
            | none => .error "decryption failure" := rfl
      have hstep : processBytes C ⟨[], 1, acc⟩ [b]
          = match feedByte C ⟨[], 1, acc⟩ b with
            | .error e => .error e
            | .ok (st', none) => processBytes C st' []
            | .ok (st', some m) =>
              match processBytes C st' [] with
              | .error e => .error e
              | .ok (st'', ms) => .ok (st'', m :: ms) := rfl
      rw [hstep, hfb]
      cases hdec : decryptMsg C (acc ++ [b]) <;> rfl
    · have hk2 : 2 ≤ k := by omega
      have hfb : feedByte C ⟨[], k, acc⟩ b = .ok (⟨[], k - 1, acc ++ [b]⟩, none) := by
        unfold feedByte
        dsimp only
        rw [if_neg (show ¬ k = 0 by omega), if_neg (show ¬ k = 1 by omega)]
      have hstep : processBytes C ⟨[], k, acc⟩ (b :: bs)
          = match feedByte C ⟨[], k, acc⟩ b with
            | .error e => .error e
            | .ok (st', none) => processBytes C st' bs
            | .ok (st', some m) =>
              match processBytes C st' bs with
              | .error e => .error e
              | .ok (st'', ms) => .ok (st'', m :: ms) := rfl
      rw [hstep, hfb]
      show processBytes C ⟨[], k - 1, acc ++ [b]⟩ bs = _
      rw [ih (k - 1) (acc ++ [b]) (by simp at hk; omega) (by omega)]
      have hassoc : (acc ++ [b]) ++ bs = acc ++ b :: bs := by simp
      rw [hassoc]

/-- C1 counterexample: the claim includes the empty message among the
valid boundary sizes, but the code rejects it: `encrypt_and_enqueue`
turns the empty message into a frame with a zero length prefix and no
body, and the receiving side treats a declared length of zero as fatal
("I got a zero-sized message"), so the round-trip does not return the
empty message. -/
theorem roundtrip_rejects_empty_message :
    encryptAndEnqueue padCipher [] = [0, 0, 0, 0]
    ∧ processParts padCipher IncomingMessage.initial [encryptAndEnqueue padCipher []]
        = .error "I got a zero-sized message"
    ∧ processParts padCipher IncomingMessage.initial [encryptAndEnqueue padCipher []]
        ≠ .ok (IncomingMessage.initial, [[]]) := by decide

/-- The other boundary named by the claim also fails, for a different
reason: the frame of a 20 MiB plaintext carries one 16-byte MAC per chunk
on top of the plaintext, so its declared length exceeds
`PROTOCOL_MAX_MESSAGE_SIZE` (which bounds the frame body, i.e. the
ciphertext) and the receiver rejects it on reading the length prefix. -/
theorem frame_of_20MiB_plaintext_exceeds_protocol_max :
    PROTOCOL_MAX_MESSAGE_SIZE < fullMsgLen (20 * 1024 * 1024) := by decide

/-- C1 (amended): for every nonempty plaintext message `m` whose frame
fits the protocol ceiling (`fullMsgLen |m| ≤ PROTOCOL_MAX_MESSAGE_SIZE`,
i.e. `|m| ≤ 20 966 384`; in particular every nonempty multiple of
`NOISE_MAX_PAYLOAD_LEN` up to that bound), encrypting and framing `m` and
then de-framing and decrypting on the receiving session yields exactly
`[m]` again, for EVERY socket schedule — any partition of the frame's
byte stream into successful reads separated by `WouldBlock`s. -/
theorem encrypt_decrypt_roundtrip (C : NoiseCipher) (m : List Nat) (parts : List (List Nat))
    (hm : m ≠ []) (hsize : fullMsgLen m.length ≤ PROTOCOL_MAX_MESSAGE_SIZE)
    (hparts : parts.flatten = encryptAndEnqueue C m) :
    processParts C IncomingMessage.initial parts
      = .ok (IncomingMessage.initial, [m]) := by
  unfold processParts
  rw [hparts]
  unfold encryptAndEnqueue
  have hL0 : 0 < fullMsgLen m.length := fullMsgLen_pos _ (List.length_pos.2 hm)
  rw [processBytes_header C _ _ hL0 hsize]
  rw [processBytes_body C _ _ []
    (sealChunks_length C m.length m 0 (le_refl _)) hL0]
  rw [List.nil_append]
  unfold decryptMsg
  rw [openChunks_sealChunks C m.length m 0 (le_refl _) hm]

/-- Concrete instance of `encrypt_decrypt_roundtrip`: the one-byte
message `[7]` — framed as the length prefix `[0,0,0,17]` and one sealed
chunk — split across two socket reads cutting the length field in half,
decodes back to `[7]`. -/
theorem encrypt_decrypt_roundtrip_witness :
    processParts padCipher IncomingMessage.initial
      [[0, 0], [0, 17, 7, 0, 0, 0, 0, 0, 0, 0, 0, 0, 0, 0, 0, 0, 0, 0, 0]]
      = .ok (IncomingMessage.initial, [[7]]) :=
  encrypt_decrypt_roundtrip padCipher [7]
    [[0, 0], [0, 17, 7, 0, 0, 0, 0, 0, 0, 0, 0, 0, 0, 0, 0, 0, 0, 0, 0]]
    (by decide) (by decide) (by decide)

end ConcordiumNode
